import Mathlib

/-!
# Verification of the PLUMES informative-path-planning core

This file gives a shallow embedding, in Lean 4 over exact rational (and, for
Euclidean distances, real) arithmetic, of the two core components of the
`informative_path_planning` repository:

* the online Gaussian-process surrogate model
  (`scripts/gpmodel_library.py`: `GPModel`, `OnlineGPModel` with
  `init_model`, `update_model`, `add_data`, `predict_value`, `train_kernel`), and
* the sequential decision loop
  (`scripts/robot_library.py`: `Robot.choose_trajectory`,
  `Robot.collect_observations`, `Robot.planner`).

Modelling conventions:

* Python float arithmetic is modelled by exact `ℚ` arithmetic; the Euclidean
  distances accumulated by the planner use `Real.sqrt` over casts of rationals.
* The RBF kernel is modelled by an abstract pointwise kernel function
  `k : QPoint → QPoint → ℚ` (`self.kern.K(A, B)` is the matrix of pairwise
  kernel values `kermat k`); none of the verified properties depends on the
  particular radial-basis formula, only (for the block-equivalence claim) on
  the kernel being symmetric, which RBF is.
* Observation batches are typed parallel vectors `ι → QPoint` / `ι → ℚ` over a
  finite index type, mirroring the documented NUM_PTS x 2 / NUM_PTS x 1 numpy
  arrays; stacking two batches is indexed by a sum type.
* GPy's `pdinv` (Cholesky-based inverse of a positive-definite matrix) is
  modelled by the exact adjugate-based inverse `qInv`; the theorems carry
  explicit nonzero-determinant hypotheses exactly where the Python code
  requires `pdinv` to succeed.
* External collaborators (GPy's legacy predictor, the scipy optimizer, the
  field oracle `sample_world`, the path generator, the acquisition functions,
  numpy's random choice) are parameters of the embedded functions.
-/

namespace IPP

open Matrix

/-- A sample location in the 2-D domain (one row of a NUM_PTS x 2 numpy array). -/
abbrev QPoint : Type := ℚ × ℚ

/-- Additional diagonal jitter `1e-8` that `init_model` and `update_model` add
(together with the sensor noise) before inverting, via `diag.add(Ky, self.noise + 1e-8)`. -/
def jitter : ℚ := 1 / 100000000

/-- Computable matrix inverse over `ℚ` by the adjugate formula; this models
GPy's `pdinv`, which returns the inverse of a positive-definite matrix.
On a singular matrix `pdinv` raises; correspondingly the theorems below
assume a nonzero determinant wherever the code calls `pdinv`. -/
def qInv {ι : Type} [Fintype ι] [DecidableEq ι] (A : Matrix ι ι ℚ) : Matrix ι ι ℚ :=
  (A.det)⁻¹ • A.adjugate

/-- Pairwise kernel matrix: the model of `self.kern.K(x, y)` for an abstract
pointwise kernel `k`. -/
def kermat {ι κ : Type} (k : QPoint → QPoint → ℚ) (x : ι → QPoint) (y : κ → QPoint) :
    Matrix ι κ ℚ :=
  Matrix.of fun i j => k (x i) (y j)

/-- The posterior state of a non-empty `OnlineGPModel`: the data fields set by
`init_model` and `update_model`.  `xvals`, `zvals` are the stacked
observations; `gram` is `self._K`; `wInv` is `self._woodbury_inv`; `wVec` is
`self._woodbury_vector`.  The three lazily-cached quantities
(`self._woodbury_chol`, `self._mean`, `self._covariance`) are modelled as
`Option` fields, reset to `none` (Python `None`) on every update. -/
structure GPData (ι : Type) where
  xvals : ι → QPoint
  zvals : ι → ℚ
  gram : Matrix ι ι ℚ
  wInv : Matrix ι ι ℚ
  wVec : ι → ℚ
  wChol : Option (Matrix ι ι ℚ)
  meanCache : Option (ι → ℚ)
  covCache : Option (Matrix ι ι ℚ)

/-- Model of `OnlineGPModel.init_model(xvals, zvals)`: build the Gram matrix,
regularize its diagonal by `noise + 1e-8`, invert once, and set the Woodbury
vector to `woodbury_inv . zvals`; all caches are reset. -/
def init_model {ι : Type} [Fintype ι] [DecidableEq ι] (k : QPoint → QPoint → ℚ) (noise : ℚ)
    (xvals : ι → QPoint) (zvals : ι → ℚ) : GPData ι :=
  let K := kermat k xvals xvals
  let Wi := qInv (K + (noise + jitter) • (1 : Matrix ι ι ℚ))
  { xvals := xvals
    zvals := zvals
    gram := K
    wInv := Wi
    wVec := Wi.mulVec zvals
    wChol := none
    meanCache := none
    covCache := none }

/-- Model of `OnlineGPModel.update_model(xvals, zvals, incremental)`: stack the
new batch, extend the Gram matrix as a 2x2 block matrix, and either fold the
new block into the existing inverse by the Schur-complement identity
(`incremental = True`) or re-invert the full regularized Gram matrix.
`Pinv` is the previously cached Woodbury inverse `self.woodbury_inv`. -/
def update_model {ι κ : Type} [Fintype ι] [DecidableEq ι] [Fintype κ] [DecidableEq κ]
    (incremental : Bool) (k : QPoint → QPoint → ℚ) (noise : ℚ) (m : GPData ι)
    (xvals : κ → QPoint) (zvals : κ → ℚ) : GPData (ι ⊕ κ) :=
  let Kx : Matrix ι κ ℚ := kermat k m.xvals xvals
  let K2 : Matrix (ι ⊕ κ) (ι ⊕ κ) ℚ := Matrix.fromBlocks m.gram Kx Kxᵀ (kermat k xvals xvals)
  let xnew := Sum.elim m.xvals xvals
  let znew := Sum.elim m.zvals zvals
  let Wi : Matrix (ι ⊕ κ) (ι ⊕ κ) ℚ :=
    if incremental then
      let Pinv := m.wInv
      let M := qInv (kermat k xvals xvals - Kxᵀ * Pinv * Kx + (noise + jitter) • 1)
      Matrix.fromBlocks (Pinv + Pinv * Kx * M * Kxᵀ * Pinv) (-(Pinv * Kx * M))
        (-(M * Kxᵀ * Pinv)) M
    else
      qInv (K2 + (noise + jitter) • 1)
  { xvals := xnew
    zvals := znew
    gram := K2
    wInv := Wi
    wVec := Wi.mulVec znew
    wChol := none
    meanCache := none
    covCache := none }

/-- Model of the data-bearing branch of `OnlineGPModel.predict_value` with
`full_cov = False` (the default, and the branch the decision loop exercises):
`mu = Kx.T . woodbury_vector`,
`var = Kdiag(q) - sum(dot(woodbury_inv.T, Kx) * Kx, axis 0)`,
plus the noise variance elementwise when `include_noise` is set. -/
def predict_value_data {ι μ : Type} [Fintype ι] [DecidableEq ι]
    (k : QPoint → QPoint → ℚ) (noise : ℚ) (m : GPData ι) (q : μ → QPoint)
    (include_noise : Bool) : (μ → ℚ) × (μ → ℚ) :=
  let Kx : Matrix ι μ ℚ := kermat k m.xvals q
  let mu := Kxᵀ.mulVec m.wVec
  let var := fun j => k (q j) (q j) - ∑ i, (m.wInvᵀ * Kx) i j * Kx i j
  (mu, fun j => var j + if include_noise then noise else 0)

/-- The state of an `OnlineGPModel`: kernel (with its prior variance) and noise
hyperparameters, and the optional observation-dependent posterior data
(`self.xvals is None` before the first `add_data` call). -/
structure OnlineGPModel where
  kernel : QPoint → QPoint → ℚ
  variance : ℚ
  noise : ℚ
  data : Option ((n : ℕ) × GPData (Fin n))

/-- Model of `OnlineGPModel.predict_value`: with no observations it returns the
zero mean vector and the constant prior-variance vector (with no noise term);
otherwise it defers to the Woodbury-form predictor. -/
def OnlineGPModel.predict_value {μ : Type} (m : OnlineGPModel) (q : μ → QPoint)
    (include_noise : Bool) : (μ → ℚ) × (μ → ℚ) :=
  match m.data with
  | none => (fun _ => 0, fun _ => m.variance)
  | some d => predict_value_data m.kernel m.noise d.2 q include_noise

/-- Reindexing of the posterior data along an equivalence of index types; used
to present the block-indexed result of `update_model` over the index
`Fin (n0 + n)` of the stacked numpy arrays. -/
def reindexData {ι κ : Type} (e : ι ≃ κ) (d : GPData ι) : GPData κ :=
  { xvals := d.xvals ∘ e.symm
    zvals := d.zvals ∘ e.symm
    gram := d.gram.submatrix e.symm e.symm
    wInv := d.wInv.submatrix e.symm e.symm
    wVec := d.wVec ∘ e.symm
    wChol := d.wChol.map fun A => A.submatrix e.symm e.symm
    meanCache := d.meanCache.map fun v => v ∘ e.symm
    covCache := d.covCache.map fun A => A.submatrix e.symm e.symm }

/-- Model of `OnlineGPModel.add_data(xvals, zvals)`: initialize the model on
the first call (`self.xvals is None`), otherwise perform the incremental
update (`update_model` with its default `incremental = True`). -/
def OnlineGPModel.add_data (m : OnlineGPModel) {n : ℕ} (xvals : Fin n → QPoint)
    (zvals : Fin n → ℚ) : OnlineGPModel :=
  match m.data with
  | none => { m with data := some ⟨n, init_model m.kernel m.noise xvals zvals⟩ }
  | some d =>
      { m with
        data := some ⟨d.1 + n,
          reindexData finSumFinEquiv (update_model true m.kernel m.noise d.2 xvals zvals)⟩ }

/-- The state of the legacy `GPModel` wrapper on top of GPy: stored data arrays
(Python `None` before any data) and the optional GPy regression object, whose
type `G` is abstract because GPy is an external collaborator. -/
structure GPModel (G : Type) where
  variance : ℚ
  noise : ℚ
  xvals : Option (List QPoint)
  zvals : Option (List ℚ)
  model : Option G

/-- Model of `GPModel.predict_value`: with no GPy model yet (no observations),
return the zero mean and the constant prior variance; otherwise defer to the
external GPy predictor, passed as the parameter `gpyPredict`. -/
def GPModel.predict_value {G μ : Type} (m : GPModel G)
    (gpyPredict : G → (μ → QPoint) → Bool → (μ → ℚ) × (μ → ℚ))
    (q : μ → QPoint) (include_noise : Bool) : (μ → ℚ) × (μ → ℚ) :=
  match m.model with
  | none => (fun _ => 0, fun _ => m.variance)
  | some g => gpyPredict g q include_noise

/-- Outcome of `GPModel.train_kernel`: either the insufficient-data error
(`ValueError: Failed to train kernel. No training data provided.`) or a
completed optimize-and-save of the kernel hyperparameters, whose result type
`A` is abstract (scipy optimization and the `.npy` file are external). -/
inductive TrainResult (A : Type) where
  | insufficientData
  | trained (saved : A)

/-- Model of `GPModel.train_kernel(xvals, zvals, kernel_file)`.  The code
checks only the stored `self.xvals`/`self.zvals` (the arguments are
overwritten by the stored data when present, and ignored by the check when
absent); with stored data it optimizes the kernel hyperparameters on that
data and saves them, otherwise it raises the insufficient-data error. -/
def GPModel.train_kernel {G A : Type} (m : GPModel G)
    (_xargs : Option (List QPoint)) (_zargs : Option (List ℚ))
    (optimizeAndSave : List QPoint → List ℚ → A) : TrainResult A :=
  match m.xvals, m.zvals with
  | some xs, some zs => TrainResult.trained (optimizeAndSave xs zs)
  | some _, none => TrainResult.insufficientData
  | none, _ => TrainResult.insufficientData

/-! ## The decision loop (`robot_library.py`) -/

/-- The mutable state of a `Robot` that the decision loop reads and writes:
pose (heading is dropped: no modelled operation depends on it), accumulated
travel distance `self.dist`, accepted-trajectory history `self.trajectory`,
the running best observation `self.current_max` / `self.current_max_loc`, and
the observations accumulated in the robot's GP model by `GP.add_data`. -/
structure RobotState where
  loc : QPoint
  dist : ℝ
  trajectory : List (List QPoint)
  currentMax : ℚ
  currentMaxLoc : QPoint
  obsX : List QPoint
  obsZ : List ℚ

/-- The robot state produced by `Robot.__init__`: `current_max = -1000`,
`current_max_loc = [0, 0]`, no trajectory, no distance, no observations. -/
def initRobot (start : QPoint) : RobotState :=
  { loc := start
    dist := 0
    trajectory := []
    currentMax := -1000
    currentMaxLoc := (0, 0)
    obsX := []
    obsZ := [] }

/-- One iteration of the running-best update in `Robot.collect_observations`:
`if z[0] > self.current_max: ...` replaces both the value and the location,
on strict improvement only. -/
def obsMaxStep (c : ℚ × QPoint) (zx : ℚ × QPoint) : ℚ × QPoint :=
  if c.1 < zx.1 then zx else c

/-- The running-best loop of `Robot.collect_observations` over the zipped
`(z, x)` pairs. -/
def obsMaxFold (c : ℚ × QPoint) (l : List (ℚ × QPoint)) : ℚ × QPoint :=
  l.foldl obsMaxStep c

/-- Model of `Robot.collect_observations(xobs)`: sample the field oracle,
append the observations to the GP model (`GP.add_data`), and update the
running best over `zip(zobs, xobs)` (Python `zip` truncates to the shorter
sequence, as `List.zip` does). -/
def collect_observations (sample : List QPoint → List ℚ) (s : RobotState)
    (xobs : List QPoint) : RobotState :=
  let zobs := sample xobs
  let c := obsMaxFold (s.currentMax, s.currentMaxLoc) (zobs.zip xobs)
  { s with
    obsX := s.obsX ++ xobs
    obsZ := s.obsZ ++ zobs
    currentMax := c.1
    currentMaxLoc := c.2 }

/-- One candidate of the path set: its dictionary key in `paths`, its
sampling-point sequence `paths[key]`, and its geometric representation
`true_paths[key]`. -/
structure PathEntry where
  pid : ℕ
  points : List QPoint
  geom : List QPoint

/-- The `path_generator` configuration string of the robot. -/
inductive PathOption where
  | default
  | dubins
  | equal_dubins
  | fully_reachable_goal
  | fully_reachable_step

/-- The `Robot` configuration fields read by `choose_trajectory`. -/
structure RobotCfg where
  use_cost : Bool
  goal_only : Bool
  path_option : PathOption
  goals : ℕ → QPoint

/-- The points over which `choose_trajectory` evaluates the acquisition
function for one candidate: the terminal point of the path, the associated
goal, or the whole sampling path, depending on configuration. -/
def poiOf (cfg : RobotCfg) (pid : ℕ) (points : List QPoint) : List QPoint :=
  match cfg.path_option, cfg.goal_only with
  | PathOption.fully_reachable_goal, true => (points.getLast?).elim [] fun p => [p]
  | PathOption.fully_reachable_step, true => [cfg.goals pid]
  | _, _ => points

/-- The cost `choose_trajectory` divides by: `100.0` when cost normalization
is off; otherwise the path generator's cost, replaced by `100.0` when it is
exactly `0.0`. -/
def effectiveCost (cfg : RobotCfg) (pathCost : List QPoint → ℚ) (geom : List QPoint) : ℚ :=
  if cfg.use_cost then (if pathCost geom = 0 then 100 else pathCost geom) else 100

/-- The score `value[path]` that `choose_trajectory` assigns to one candidate:
the acquisition reward, divided by the effective cost only when
`self.use_cost` is set. -/
def scoreOf (cfg : RobotCfg) (aq : List QPoint → ℚ) (pathCost : List QPoint → ℚ)
    (e : PathEntry) : ℚ :=
  if cfg.use_cost then
    aq (poiOf cfg e.pid e.points) / effectiveCost cfg pathCost e.geom
  else
    aq (poiOf cfg e.pid e.points)

/-- The `value` dictionary built by the scoring loop of `choose_trajectory`,
in candidate-set iteration order (Python dictionaries preserve insertion
order).  The acquisition function `aq` abstracts
`self.aquisition_function(time, xvals, robot_model, param)` with the epoch,
model and reward-mode parameters already applied. -/
def valuesOf (cfg : RobotCfg) (aq : List QPoint → ℚ) (pathCost : List QPoint → ℚ)
    (entries : List PathEntry) : List (ℕ × ℚ) :=
  entries.map fun e => (e.pid, scoreOf cfg aq pathCost e)

/-- The tied-argmax key list
`[key for key in value.keys() if value[key] == max(value.values())]`. -/
def bestKeys (values : List (ℕ × ℚ)) (mx : ℚ) : List ℕ :=
  (values.filter fun v => decide (v.2 = mx)).map Prod.fst

/-- The key that `np.random.choice` picks from the tied-argmax list, with the
random draw modelled by an arbitrary natural `r` reduced modulo the list
length (uniform `r` gives the uniform choice of `np.random.choice`).  With an
empty `value` dictionary, Python's `max` raises and the surrounding
`try ... except` makes `choose_trajectory` return `None`: modelled by `none`. -/
def chosen_key (values : List (ℕ × ℚ)) (r : ℕ) : Option ℕ :=
  match (values.map Prod.snd).maximum with
  | none => none
  | some mx => (bestKeys values mx)[r % (bestKeys values mx).length]?

/-- The successful return tuple of `Robot.choose_trajectory`:
`paths[best_key]`, `true_paths[best_key]`, `value[best_key]`, and the full
score dictionary (the unmodelled `self.max_locs` slot is omitted).  The
chosen dictionary key is recorded alongside. -/
structure ChooseResult where
  key : ℕ
  sampling : List QPoint
  best : List QPoint
  bestVal : ℚ
  values : List (ℕ × ℚ)

/-- Model of `Robot.choose_trajectory(t)`: score every candidate returned by
`self.path_generator.get_path_set(self.loc)`, then select a maximal-score
candidate with ties broken by `np.random.choice`; any failure inside the
selection block (empty candidate set) yields `None`. -/
def choose_trajectory (cfg : RobotCfg) (aq : List QPoint → ℚ)
    (pathCost : List QPoint → ℚ) (getPathSet : QPoint → List PathEntry)
    (r : ℕ) (loc : QPoint) : Option ChooseResult :=
  let entries := getPathSet loc
  let values := valuesOf cfg aq pathCost entries
  match chosen_key values r with
  | none => none
  | some bk =>
    match entries.find? fun e => e.pid == bk with
    | none => none
    | some e =>
        some { key := bk
               sampling := e.points
               best := e.geom
               bestVal := (values.lookup bk).getD 0
               values := values }

/-- Euclidean distance of one step of the accepted path, as accumulated by
`self.dist += np.sqrt((start[0] - m[0])**2 + (start[1] - m[1])**2)`. -/
noncomputable def stepDist (a b : QPoint) : ℝ :=
  Real.sqrt (((a.1 - b.1) ^ 2 + (a.2 - b.2) ^ 2 : ℚ) : ℝ)

/-- The per-epoch distance accumulation of `Robot.planner`: from the current
pose, walk the waypoints of the accepted path, summing step distances. -/
noncomputable def pathDistFrom (start : QPoint) : List QPoint → ℝ
  | [] => 0
  | m :: rest => stepDist start m + pathDistFrom m rest

/-- Total Euclidean length of a waypoint chain (sum of waypoint-to-waypoint
distances): the quantity the distance-accumulation property compares
`self.dist` against. -/
noncomputable def chainDist : List QPoint → ℝ
  | [] => 0
  | [_] => 0
  | a :: b :: rest => stepDist a b + chainDist (b :: rest)

/-- Result of a `Robot.planner` run: normal completion of the horizon, or a
Python runtime error (modelled state = the object state at the raise). -/
inductive PlanResult where
  | done (s : RobotState)
  | crashed (s : RobotState)

/-- One epoch of the myopic `Robot.planner` loop, with the trajectory chooser
and the field oracle as parameters.  The order of effects follows the code:

* unpack `self.choose_trajectory(t)` into the 6-tuple — when it returned
  `None`, this raises `TypeError: cannot unpack non-iterable NoneType`
  before any state is touched, modelled by `Except.error` with the state
  unchanged (the later `if best_path == None: break` is unreachable in the
  myopic branch, whose chooser never puts `None` inside a tuple);
* accumulate `self.dist` over the accepted geometric path `best_path`;
* `np.array(sampling_path)[:, 0]` raises on an empty sampling path, after the
  distance update;
* `collect_observations` over the sampling points;
* append `best_path` to `self.trajectory`;
* advance the pose to `sampling_path[-1]`. -/
noncomputable def epochStep (choose : ℕ → QPoint → Option (List QPoint × List QPoint))
    (sample : List QPoint → List ℚ) (t : ℕ) (s : RobotState) :
    Except RobotState RobotState :=
  match choose t s.loc with
  | none => Except.error s
  | some (sp, bp) =>
    let s1 : RobotState := { s with dist := s.dist + pathDistFrom s.loc bp }
    match sp.getLast? with
    | none => Except.error s1
    | some lastPt =>
      let s2 := collect_observations sample s1 sp
      Except.ok { s2 with trajectory := s2.trajectory ++ [bp], loc := lastPt }

/-- The epoch recursion of `Robot.planner`: run `rem` remaining epochs
starting at epoch index `t`; a raised exception aborts the run with the state
accumulated so far. -/
noncomputable def plannerLoop (choose : ℕ → QPoint → Option (List QPoint × List QPoint))
    (sample : List QPoint → List ℚ) : ℕ → ℕ → RobotState → PlanResult
  | _, 0, s => PlanResult.done s
  | t, rem + 1, s =>
    match epochStep choose sample t s with
    | Except.error s1 => PlanResult.crashed s1
    | Except.ok s1 => plannerLoop choose sample (t + 1) rem s1

/-- Model of `Robot.planner(T)`: reset `self.trajectory` and `self.dist`,
then run `T` epochs. -/
noncomputable def planner (choose : ℕ → QPoint → Option (List QPoint × List QPoint))
    (sample : List QPoint → List ℚ) (T : ℕ) (s : RobotState) : PlanResult :=
  plannerLoop choose sample 0 T { s with trajectory := [], dist := 0 }

/-- The chooser the myopic planner branch uses: `Robot.choose_trajectory`
itself, projected to the `(sampling_path, best_path)` components the loop
consumes, with a per-epoch random draw `r t`. -/
noncomputable def myopicChoose (cfg : RobotCfg) (aq : ℕ → List QPoint → ℚ)
    (pathCost : List QPoint → ℚ) (getPathSet : QPoint → List PathEntry)
    (r : ℕ → ℕ) (t : ℕ) (loc : QPoint) : Option (List QPoint × List QPoint) :=
  (choose_trajectory cfg (aq t) pathCost getPathSet (r t) loc).map fun res =>
    (res.sampling, res.best)

/-! ## Helper lemmas: the exact inverse and the Schur-complement block identity -/

lemma qInv_eq_inv {ι : Type} [Fintype ι] [DecidableEq ι] (A : Matrix ι ι ℚ) : qInv A = A⁻¹ := by
  rw [Matrix.inv_def, Ring.inverse_eq_inv, qInv]

lemma qInv_mul_self {ι : Type} [Fintype ι] [DecidableEq ι] {A : Matrix ι ι ℚ}
    (h : A.det ≠ 0) : qInv A * A = 1 := by
  rw [qInv_eq_inv]
  exact Matrix.nonsing_inv_mul A (Ne.isUnit h)

lemma mul_qInv_self {ι : Type} [Fintype ι] [DecidableEq ι] {A : Matrix ι ι ℚ}
    (h : A.det ≠ 0) : A * qInv A = 1 := by
  rw [qInv_eq_inv]
  exact Matrix.mul_nonsing_inv A (Ne.isUnit h)

lemma qInv_eq_of_left_inv {ι : Type} [Fintype ι] [DecidableEq ι] {A B : Matrix ι ι ℚ}
    (h : B * A = 1) : qInv A = B := by
  rw [qInv_eq_inv]
  exact Matrix.inv_eq_left_inv h

/-- The Schur-complement 2x2 block-inverse identity, in the exact form assembled
by `update_model`: the incremental Woodbury update of the inverse equals the
inverse of the full block matrix, provided the previous inverse and the
regularized Schur complement exist. -/
lemma qInv_fromBlocks_eq {ι κ : Type} [Fintype ι] [DecidableEq ι] [Fintype κ] [DecidableEq κ]
    (P : Matrix ι ι ℚ) (Q : Matrix ι κ ℚ) (R : Matrix κ ι ℚ) (S : Matrix κ κ ℚ)
    (hP : P.det ≠ 0) (hS : (S - R * qInv P * Q).det ≠ 0) :
    Matrix.fromBlocks
        (qInv P + qInv P * Q * qInv (S - R * qInv P * Q) * R * qInv P)
        (-(qInv P * Q * qInv (S - R * qInv P * Q)))
        (-(qInv (S - R * qInv P * Q) * R * qInv P))
        (qInv (S - R * qInv P * Q))
      = qInv (Matrix.fromBlocks P Q R S) := by
  letI iP : Invertible P := P.invertibleOfIsUnitDet (Ne.isUnit hP)
  have hiP : ⅟P = qInv P := by rw [invOf_eq_nonsing_inv, qInv_eq_inv]
  letI iS : Invertible (S - R * ⅟P * Q) := by
    rw [hiP]
    exact (S - R * qInv P * Q).invertibleOfIsUnitDet (Ne.isUnit hS)
  letI iA : Invertible (Matrix.fromBlocks P Q R S) := Matrix.fromBlocks₁₁Invertible P Q R S
  have h1 := Matrix.invOf_fromBlocks₁₁_eq P Q R S
  have h2 : qInv (Matrix.fromBlocks P Q R S) = ⅟(Matrix.fromBlocks P Q R S) := by
    rw [invOf_eq_nonsing_inv, qInv_eq_inv]
  rw [h2, h1]
  have h3 : ⅟(S - R * ⅟P * Q) = qInv (S - R * qInv P * Q) := by
    rw [invOf_eq_nonsing_inv, ← qInv_eq_inv, hiP]
  rw [h3, hiP]

/-- Splitting the diagonal regularization of a 2x2 block matrix into its
diagonal blocks. -/
lemma fromBlocks_add_smul_one {ι κ : Type} [Fintype ι] [DecidableEq ι] [Fintype κ]
    [DecidableEq κ] (c : ℚ) (A : Matrix ι ι ℚ) (B : Matrix ι κ ℚ) (C : Matrix κ ι ℚ)
    (D : Matrix κ κ ℚ) :
    Matrix.fromBlocks A B C D + c • (1 : Matrix (ι ⊕ κ) (ι ⊕ κ) ℚ)
      = Matrix.fromBlocks (A + c • 1) B C (D + c • 1) := by
  rw [← Matrix.fromBlocks_one, Matrix.fromBlocks_smul, Matrix.fromBlocks_add]
  simp

/-- The full Gram matrix over two stacked batches is the 2x2 block matrix of
the per-batch kernel matrices; for a symmetric kernel the bottom-left block is
the transpose of the cross-covariance, as `update_model` assembles it. -/
lemma kermat_sum_elim {ι κ : Type} (k : QPoint → QPoint → ℚ)
    (hsym : ∀ a b, k a b = k b a) (x1 : ι → QPoint) (x2 : κ → QPoint) :
    kermat k (Sum.elim x1 x2) (Sum.elim x1 x2)
      = Matrix.fromBlocks (kermat k x1 x1) (kermat k x1 x2) (kermat k x1 x2)ᵀ
          (kermat k x2 x2) := by
  ext i j
  cases i <;> cases j <;>
    simp only [kermat, Matrix.fromBlocks_apply₁₁, Matrix.fromBlocks_apply₁₂,
      Matrix.fromBlocks_apply₂₁, Matrix.fromBlocks_apply₂₂, Matrix.transpose_apply,
      Matrix.of_apply, Sum.elim_inl, Sum.elim_inr]
  exact hsym _ _

/-- The soundness invariant of the posterior data of an `OnlineGPModel`, as
stated by the specification: the cached Gram matrix is the kernel matrix of
the stored inputs, the Woodbury inverse is a two-sided inverse of the
regularized Gram matrix, and the Woodbury vector is the Woodbury inverse
applied to the stored observation values. -/
def GPData.Sound {ι : Type} [Fintype ι] [DecidableEq ι] (k : QPoint → QPoint → ℚ)
    (noise : ℚ) (d : GPData ι) : Prop :=
  d.gram = kermat k d.xvals d.xvals ∧
  d.wInv * (d.gram + (noise + jitter) • 1) = 1 ∧
  (d.gram + (noise + jitter) • 1) * d.wInv = 1 ∧
  d.wVec = d.wInv.mulVec d.zvals

/-- Key lemma for the incremental update: starting from sound posterior data,
`update_model` with `incremental = True` produces exactly the adjugate-form
inverse of the full regularized Gram matrix, provided the regularized Schur
complement that the code hands to `pdinv` is nonsingular. -/
lemma update_model_wInv_eq {ι κ : Type} [Fintype ι] [DecidableEq ι] [Fintype κ]
    [DecidableEq κ] (k : QPoint → QPoint → ℚ) (noise : ℚ) (d : GPData ι)
    (x2 : κ → QPoint) (z2 : κ → ℚ)
    (hPinv : d.wInv * (d.gram + (noise + jitter) • 1) = 1)
    (hS : (kermat k x2 x2 - (kermat k d.xvals x2)ᵀ * d.wInv * kermat k d.xvals x2
        + (noise + jitter) • 1).det ≠ 0) :
    (update_model true k noise d x2 z2).wInv
      = qInv ((update_model true k noise d x2 z2).gram + (noise + jitter) • 1) := by
  have hP : (d.gram + (noise + jitter) • (1 : Matrix ι ι ℚ)).det ≠ 0 := by
    intro h0
    have h1 : (d.wInv * (d.gram + (noise + jitter) • 1)).det = 0 := by
      rw [Matrix.det_mul, h0, mul_zero]
    rw [hPinv, Matrix.det_one] at h1
    exact one_ne_zero h1
  have hinv : d.wInv = qInv (d.gram + (noise + jitter) • 1) := (qInv_eq_of_left_inv hPinv).symm
  simp only [update_model, if_true]
  rw [fromBlocks_add_smul_one]
  have hschur : kermat k x2 x2 - (kermat k d.xvals x2)ᵀ * d.wInv * kermat k d.xvals x2
        + (noise + jitter) • 1
      = kermat k x2 x2 + (noise + jitter) • 1
        - (kermat k d.xvals x2)ᵀ * qInv (d.gram + (noise + jitter) • 1)
          * kermat k d.xvals x2 := by
    rw [sub_add_eq_add_sub, hinv]
  rw [hschur, hinv]
  exact qInv_fromBlocks_eq (d.gram + (noise + jitter) • 1) (kermat k d.xvals x2)
    (kermat k d.xvals x2)ᵀ (kermat k x2 x2 + (noise + jitter) • 1) hP
    (by rw [← hschur]; exact hS)

lemma det_ne_zero_of_left_inv {ι : Type} [Fintype ι] [DecidableEq ι] {A B : Matrix ι ι ℚ}
    (h : B * A = 1) : A.det ≠ 0 := by
  intro h0
  have hd : (B * A).det = 0 := by rw [Matrix.det_mul, h0, mul_zero]
  rw [h, Matrix.det_one] at hd
  exact one_ne_zero hd

lemma fromBlocks_det_ne_zero {ι κ : Type} [Fintype ι] [DecidableEq ι] [Fintype κ]
    [DecidableEq κ] (P : Matrix ι ι ℚ) (Q : Matrix ι κ ℚ) (R : Matrix κ ι ℚ)
    (S : Matrix κ κ ℚ) (hP : P.det ≠ 0) (hS : (S - R * qInv P * Q).det ≠ 0) :
    (Matrix.fromBlocks P Q R S).det ≠ 0 := by
  letI iP : Invertible P := P.invertibleOfIsUnitDet (Ne.isUnit hP)
  have hiP : ⅟P = qInv P := by rw [invOf_eq_nonsing_inv, qInv_eq_inv]
  letI iS : Invertible (S - R * ⅟P * Q) := by
    rw [hiP]
    exact (S - R * qInv P * Q).invertibleOfIsUnitDet (Ne.isUnit hS)
  letI iA : Invertible (Matrix.fromBlocks P Q R S) := Matrix.fromBlocks₁₁Invertible P Q R S
  exact (((Matrix.isUnit_iff_isUnit_det _).mp (isUnit_of_invertible _))).ne_zero

/-- Soundness of the state produced by `init_model`, given that `pdinv`
succeeds on the regularized Gram matrix. -/
lemma init_model_sound {ι : Type} [Fintype ι] [DecidableEq ι] (k : QPoint → QPoint → ℚ)
    (noise : ℚ) (x : ι → QPoint) (z : ι → ℚ)
    (hdet : (kermat k x x + (noise + jitter) • 1).det ≠ 0) :
    (init_model k noise x z).Sound k noise := by
  refine ⟨rfl, ?_, ?_, rfl⟩
  · simpa [init_model] using qInv_mul_self hdet
  · simpa [init_model] using mul_qInv_self hdet

/-- Soundness is preserved by the incremental `update_model`, given a
symmetric kernel and that `pdinv` succeeds on the regularized Schur
complement. -/
lemma update_model_sound {ι κ : Type} [Fintype ι] [DecidableEq ι] [Fintype κ]
    [DecidableEq κ] (k : QPoint → QPoint → ℚ) (noise : ℚ) (d : GPData ι)
    (x2 : κ → QPoint) (z2 : κ → ℚ) (hsym : ∀ a b, k a b = k b a)
    (hd : d.Sound k noise)
    (hS : (kermat k x2 x2 - (kermat k d.xvals x2)ᵀ * d.wInv * kermat k d.xvals x2
        + (noise + jitter) • 1).det ≠ 0) :
    (update_model true k noise d x2 z2).Sound k noise := by
  obtain ⟨hg, h1, h2, hv⟩ := hd
  have hWi := update_model_wInv_eq k noise d x2 z2 h1 hS
  have hP : (d.gram + (noise + jitter) • (1 : Matrix ι ι ℚ)).det ≠ 0 :=
    det_ne_zero_of_left_inv h1
  have hinv : d.wInv = qInv (d.gram + (noise + jitter) • 1) := (qInv_eq_of_left_inv h1).symm
  have hblock : (update_model true k noise d x2 z2).gram + (noise + jitter) • 1
      = Matrix.fromBlocks (d.gram + (noise + jitter) • 1) (kermat k d.xvals x2)
          (kermat k d.xvals x2)ᵀ (kermat k x2 x2 + (noise + jitter) • 1) := by
    simp only [update_model]
    rw [fromBlocks_add_smul_one]
  have hA2 : ((update_model true k noise d x2 z2).gram + (noise + jitter) • 1).det ≠ 0 := by
    rw [hblock]
    refine fromBlocks_det_ne_zero _ _ _ _ hP ?_
    have hschur : kermat k x2 x2 + (noise + jitter) • 1
          - (kermat k d.xvals x2)ᵀ * qInv (d.gram + (noise + jitter) • 1)
            * kermat k d.xvals x2
        = kermat k x2 x2 - (kermat k d.xvals x2)ᵀ * d.wInv * kermat k d.xvals x2
          + (noise + jitter) • 1 := by
      rw [sub_add_eq_add_sub, hinv]
    rw [hschur]
    exact hS
  refine ⟨?_, ?_, ?_, rfl⟩
  · show Matrix.fromBlocks d.gram (kermat k d.xvals x2) (kermat k d.xvals x2)ᵀ
        (kermat k x2 x2) = kermat k (Sum.elim d.xvals x2) (Sum.elim d.xvals x2)
    rw [kermat_sum_elim k hsym, hg]
  · rw [hWi]
    exact qInv_mul_self hA2
  · rw [hWi]
    exact mul_qInv_self hA2

/-- Soundness is invariant under reindexing of the posterior data. -/
lemma reindexData_sound {ι κ : Type} [Fintype ι] [DecidableEq ι] [Fintype κ]
    [DecidableEq κ] (k : QPoint → QPoint → ℚ) (noise : ℚ) (e : ι ≃ κ) (d : GPData ι)
    (h : d.Sound k noise) : (reindexData e d).Sound k noise := by
  obtain ⟨hg, h1, h2, hv⟩ := h
  have hreg : (reindexData e d).gram + (noise + jitter) • (1 : Matrix κ κ ℚ)
      = (d.gram + (noise + jitter) • 1).submatrix e.symm e.symm := by
    simp [reindexData, Matrix.submatrix_add, Matrix.submatrix_smul,
      Matrix.submatrix_one_equiv]
  refine ⟨?_, ?_, ?_, ?_⟩
  · ext i j
    simp [reindexData, hg, kermat]
  · rw [hreg]
    show d.wInv.submatrix e.symm e.symm * _ = 1
    rw [Matrix.submatrix_mul_equiv, h1, Matrix.submatrix_one_equiv]
  · rw [hreg]
    show _ * d.wInv.submatrix e.symm e.symm = 1
    rw [Matrix.submatrix_mul_equiv, h2, Matrix.submatrix_one_equiv]
  · show d.wVec ∘ e.symm = (d.wInv.submatrix e.symm e.symm).mulVec (d.zvals ∘ e.symm)
    have hz : (d.zvals ∘ ⇑e.symm) ∘ ⇑e.symm.symm = d.zvals := by
      funext j
      simp
    rw [Matrix.submatrix_mulVec_equiv, hz, hv]

attribute [ext] GPData

/-- Incremental incorporation of a second batch into a freshly initialized
model produces, field by field, exactly the state of a single batch
initialization over the two stacked batches. -/
lemma incremental_eq_batch_data {ι κ : Type} [Fintype ι] [DecidableEq ι] [Fintype κ]
    [DecidableEq κ] (k : QPoint → QPoint → ℚ) (noise : ℚ)
    (x1 : ι → QPoint) (z1 : ι → ℚ) (x2 : κ → QPoint) (z2 : κ → ℚ)
    (hsym : ∀ a b, k a b = k b a)
    (hP : (kermat k x1 x1 + (noise + jitter) • 1).det ≠ 0)
    (hS : (kermat k x2 x2
        - (kermat k x1 x2)ᵀ * (init_model k noise x1 z1).wInv * kermat k x1 x2
        + (noise + jitter) • 1).det ≠ 0) :
    update_model true k noise (init_model k noise x1 z1) x2 z2
      = init_model k noise (Sum.elim x1 x2) (Sum.elim z1 z2) := by
  obtain ⟨hg, h1, h2, hv⟩ := init_model_sound k noise x1 z1 hP
  have hgram : (update_model true k noise (init_model k noise x1 z1) x2 z2).gram
      = (init_model k noise (Sum.elim x1 x2) (Sum.elim z1 z2)).gram := by
    show Matrix.fromBlocks (kermat k x1 x1) (kermat k x1 x2) (kermat k x1 x2)ᵀ
        (kermat k x2 x2) = kermat k (Sum.elim x1 x2) (Sum.elim x1 x2)
    rw [kermat_sum_elim k hsym]
  have hWinv : (update_model true k noise (init_model k noise x1 z1) x2 z2).wInv
      = (init_model k noise (Sum.elim x1 x2) (Sum.elim z1 z2)).wInv := by
    rw [update_model_wInv_eq k noise _ x2 z2 h1 hS, hgram]
    rfl
  refine GPData.ext rfl rfl hgram hWinv ?_ rfl rfl rfl
  show (update_model true k noise (init_model k noise x1 z1) x2 z2).wInv.mulVec
      (Sum.elim z1 z2) = _
  rw [hWinv]
  rfl

/-! ## Claim theorems for the surrogate model -/

/-- C1: for every observation sequence split into two batches, adding batch-1
to an empty `OnlineGPModel` (batch initialization via `init_model`) and then
adding batch-2 via the incremental Woodbury/Schur-complement update
(`update_model` with `incremental = True`) yields, at every valid query point,
the same posterior mean and variance from `predict_value` as a single batch
initialization over the concatenation of both batches.  In this exact-
arithmetic embedding the two posteriors are equal outright (hence within any
numerical tolerance); the hypotheses state that the kernel is symmetric (RBF
is) and that the two `pdinv` calls of the incremental run succeed. -/
theorem C1_incremental_matches_batch {ι κ μ : Type} [Fintype ι] [DecidableEq ι]
    [Fintype κ] [DecidableEq κ] (k : QPoint → QPoint → ℚ) (noise : ℚ)
    (x1 : ι → QPoint) (z1 : ι → ℚ) (x2 : κ → QPoint) (z2 : κ → ℚ)
    (hsym : ∀ a b, k a b = k b a)
    (hP : (kermat k x1 x1 + (noise + jitter) • 1).det ≠ 0)
    (hS : (kermat k x2 x2
        - (kermat k x1 x2)ᵀ * (init_model k noise x1 z1).wInv * kermat k x1 x2
        + (noise + jitter) • 1).det ≠ 0)
    (q : μ → QPoint) (include_noise : Bool) :
    predict_value_data k noise (update_model true k noise (init_model k noise x1 z1) x2 z2)
        q include_noise
      = predict_value_data k noise
          (init_model k noise (Sum.elim x1 x2) (Sum.elim z1 z2)) q include_noise := by
  rw [incremental_eq_batch_data k noise x1 z1 x2 z2 hsym hP hS]

/-- C2: for every non-empty query array, `predict_value` called on a model
holding zero observations returns a mean vector identically 0 and a variance
vector identically equal to the configured prior variance, one entry per query
point, for both `GPModel` (whose no-data branch tests `self.model == None`)
and `OnlineGPModel` (whose no-data branch tests `self.xvals is None`), and for
either value of `include_noise`. -/
theorem C2_prior_fallback {μ G : Type} (_hne : Nonempty μ)
    (m : OnlineGPModel) (hm : m.data = none)
    (g : GPModel G) (hg : g.model = none)
    (gpyPredict : G → (μ → QPoint) → Bool → (μ → ℚ) × (μ → ℚ))
    (q : μ → QPoint) (include_noise : Bool) :
    m.predict_value q include_noise = (fun _ => 0, fun _ => m.variance)
    ∧ g.predict_value gpyPredict q include_noise = (fun _ => 0, fun _ => g.variance) := by
  constructor
  · rw [OnlineGPModel.predict_value, hm]
  · rw [GPModel.predict_value, hg]

/-- C10: for every non-empty query array, `OnlineGPModel.predict_value` on a
model with zero observations returns the bare prior variance with no noise
term added, even when `include_noise` is true (its default): the returned pair
is independent of `include_noise` in that case, whereas whenever at least one
observation batch exists the noise variance is added elementwise exactly when
`include_noise` is true. -/
theorem C10_noise_only_with_observations {μ : Type} (_hne : Nonempty μ)
    (m : OnlineGPModel) (q : μ → QPoint) :
    (m.data = none →
      (m.predict_value q true).2 = (fun _ => m.variance)
      ∧ m.predict_value q true = m.predict_value q false)
    ∧ (∀ p, m.data = some p → ∀ j,
        (m.predict_value q true).2 j = (m.predict_value q false).2 j + m.noise) := by
  constructor
  · intro hm
    refine ⟨?_, ?_⟩ <;> simp only [OnlineGPModel.predict_value, hm]
  · intro p hp j
    simp only [OnlineGPModel.predict_value, hp]
    simp [predict_value_data]

/-- C8: every `train_kernel` call on a model with no stored observations fails
with the insufficient-data error, and every call on a model with stored
observations does not fail but optimizes the kernel hyperparameters on the
stored data and saves them (the scipy optimization and the `.npy` file write
are modelled by the abstract `optimizeAndSave` collaborator). -/
theorem C8_train_kernel_requires_data {G A : Type} (m : GPModel G)
    (xargs : Option (List QPoint)) (zargs : Option (List ℚ))
    (optimizeAndSave : List QPoint → List ℚ → A) :
    ((m.xvals = none ∨ m.zvals = none) →
      m.train_kernel xargs zargs optimizeAndSave = TrainResult.insufficientData)
    ∧ (∀ xs zs, m.xvals = some xs → m.zvals = some zs →
        m.train_kernel xargs zargs optimizeAndSave
          = TrainResult.trained (optimizeAndSave xs zs)) := by
  constructor
  · rintro (hx | hz)
    · rw [GPModel.train_kernel, hx]
    · rw [GPModel.train_kernel, hz]
      rcases hx : m.xvals with _ | xs <;> rfl
  · intro xs zs hx hz
    rw [GPModel.train_kernel, hx, hz]

/-- The Python-visible stored observation locations of an `OnlineGPModel`
(rows of `self.xvals`, empty when `self.xvals is None`). -/
def OnlineGPModel.xvalsList (m : OnlineGPModel) : List QPoint :=
  match m.data with
  | none => []
  | some p => List.ofFn p.2.xvals

/-- The Python-visible stored observation values of an `OnlineGPModel`
(rows of `self.zvals`, empty when `self.zvals is None`). -/
def OnlineGPModel.zvalsList (m : OnlineGPModel) : List ℚ :=
  match m.data with
  | none => []
  | some p => List.ofFn p.2.zvals

/-- Soundness of the whole model state: whenever posterior data is present it
satisfies the Woodbury invariants. -/
def OnlineGPModel.SoundState (m : OnlineGPModel) : Prop :=
  ∀ p ∈ m.data, GPData.Sound m.kernel m.noise p.2

/-- C9: after every `add_data` call on an `OnlineGPModel` (whether it triggers
the batch initialization or the incremental update), the state satisfies: the
stored observation inputs and values have equal length; the Woodbury vector
equals the Woodbury inverse applied to the stored observation values; and the
Woodbury inverse is the (exact, hence within any numerical tolerance) two-
sided inverse of the regularized Gram matrix `gram + (noise + 1e-8) * I`.
The hypotheses are that the invariant held before the call, that the kernel
is symmetric, and that the `pdinv` call performed by this `add_data`
(on the regularized Gram matrix when initializing, on the regularized Schur
complement when updating) succeeds. -/
theorem C9_add_data_invariants (m : OnlineGPModel) {n : ℕ} (x : Fin n → QPoint)
    (z : Fin n → ℚ) (hsym : ∀ a b, m.kernel a b = m.kernel b a)
    (hsound : m.SoundState)
    (hinit : m.data = none → (kermat m.kernel x x + (m.noise + jitter) • 1).det ≠ 0)
    (hupd : ∀ p, m.data = some p →
      (kermat m.kernel x x
        - (kermat m.kernel p.2.xvals x)ᵀ * p.2.wInv * kermat m.kernel p.2.xvals x
        + (m.noise + jitter) • 1).det ≠ 0) :
    (m.add_data x z).SoundState
    ∧ (m.add_data x z).xvalsList.length = (m.add_data x z).zvalsList.length := by
  rcases hm : m.data with _ | p
  · have hd : m.add_data x z
        = { m with data := some ⟨n, init_model m.kernel m.noise x z⟩ } := by
      simp only [OnlineGPModel.add_data, hm]
    rw [hd]
    constructor
    · intro p hp
      rw [Option.mem_def, Option.some_inj] at hp
      subst hp
      exact init_model_sound m.kernel m.noise x z (hinit hm)
    · simp [OnlineGPModel.xvalsList, OnlineGPModel.zvalsList]
  · have hd : m.add_data x z
        = { m with data := some ⟨p.1 + n,
              reindexData finSumFinEquiv
                (update_model true m.kernel m.noise p.2 x z)⟩ } := by
      simp only [OnlineGPModel.add_data, hm]
    have hsp : GPData.Sound m.kernel m.noise p.2 := hsound p (by rw [hm]; rfl)
    rw [hd]
    constructor
    · intro q hq
      rw [Option.mem_def, Option.some_inj] at hq
      subst hq
      exact reindexData_sound m.kernel m.noise finSumFinEquiv _
        (update_model_sound m.kernel m.noise p.2 x z hsym hsp (hupd p hm))
    · simp [OnlineGPModel.xvalsList, OnlineGPModel.zvalsList]

/-! ## Concrete witness data for the surrogate-model claims -/

/-- Constant-zero kernel used by the concrete witnesses (symmetric, as the
claims require of the RBF kernel). -/
def k0 : QPoint → QPoint → ℚ := fun _ _ => 0

/-- First witness batch: one observation at the origin. -/
def xw1 : Fin 1 → QPoint := fun _ => ((0 : ℚ), (0 : ℚ))

/-- First witness batch: its observed value. -/
def zw1 : Fin 1 → ℚ := fun _ => 1

/-- Second witness batch: one observation at `(1, 0)`. -/
def xw2 : Fin 1 → QPoint := fun _ => ((1 : ℚ), (0 : ℚ))

/-- Second witness batch: its observed value. -/
def zw2 : Fin 1 → ℚ := fun _ => 2

/-- A concrete `OnlineGPModel` holding no observations. -/
def mEmpty : OnlineGPModel :=
  { kernel := k0, variance := 100, noise := 0, data := none }

/-- A concrete `OnlineGPModel` already initialized on the first witness batch. -/
def mOne : OnlineGPModel :=
  { kernel := k0, variance := 100, noise := 0, data := some ⟨1, init_model k0 0 xw1 zw1⟩ }

/-- A concrete legacy `GPModel` with no data and no GPy model. -/
def gEmpty : GPModel Unit :=
  { variance := 100, noise := 0, xvals := none, zvals := none, model := none }

/-- A concrete legacy `GPModel` with one stored observation. -/
def gOne : GPModel Unit :=
  { variance := 100, noise := 0, xvals := some [((0 : ℚ), (0 : ℚ))],
    zvals := some [(1 : ℚ)], model := none }

/-- Witness for C1: the incremental/batch equivalence instantiated at a
concrete two-batch split, one point per batch, with both `pdinv`-success
hypotheses discharged by computation. -/
theorem C1_witness :
    predict_value_data k0 0 (update_model true k0 0 (init_model k0 0 xw1 zw1) xw2 zw2)
        xw2 true
      = predict_value_data k0 0
          (init_model k0 0 (Sum.elim xw1 xw2) (Sum.elim zw1 zw2)) xw2 true :=
  C1_incremental_matches_batch k0 0 xw1 zw1 xw2 zw2 (fun _ _ => rfl)
    (by simp [Matrix.det_fin_one, kermat, k0, jitter, Matrix.add_apply, Matrix.smul_apply,
      Matrix.one_apply])
    (by simp [Matrix.det_fin_one, kermat, k0, jitter, init_model, qInv,
      Matrix.adjugate_fin_one, Matrix.mul_apply, Matrix.add_apply, Matrix.smul_apply,
      Matrix.sub_apply, Matrix.transpose_apply, Matrix.one_apply, Fin.sum_univ_one])
    xw2 true

/-- Witness for C2: the prior fallback at a concrete empty online model and a
concrete empty legacy model, with a one-point query. -/
theorem C2_witness :
    mEmpty.predict_value (fun _ : Fin 1 => ((2 : ℚ), (3 : ℚ))) false
        = (fun _ => 0, fun _ => mEmpty.variance)
    ∧ gEmpty.predict_value (fun _ _ _ => (fun _ => 0, fun _ => 0))
        (fun _ : Fin 1 => ((2 : ℚ), (3 : ℚ))) false
        = (fun _ => 0, fun _ => gEmpty.variance) :=
  C2_prior_fallback ⟨0⟩ mEmpty rfl gEmpty rfl (fun _ _ _ => (fun _ => 0, fun _ => 0))
    (fun _ => ((2 : ℚ), (3 : ℚ))) false

/-- Witness for C10 at a concrete empty model and a concrete one-observation
model, covering both branches of the claim. -/
theorem C10_witness :
    ((mEmpty.data = none →
        (mEmpty.predict_value (fun _ : Fin 1 => ((2 : ℚ), (3 : ℚ))) true).2
            = (fun _ => mEmpty.variance)
        ∧ mEmpty.predict_value (fun _ : Fin 1 => ((2 : ℚ), (3 : ℚ))) true
            = mEmpty.predict_value (fun _ : Fin 1 => ((2 : ℚ), (3 : ℚ))) false)
      ∧ (∀ p, mEmpty.data = some p → ∀ j,
          (mEmpty.predict_value (fun _ : Fin 1 => ((2 : ℚ), (3 : ℚ))) true).2 j
            = (mEmpty.predict_value (fun _ : Fin 1 => ((2 : ℚ), (3 : ℚ))) false).2 j
              + mEmpty.noise))
    ∧ ((mOne.data = none →
        (mOne.predict_value (fun _ : Fin 1 => ((2 : ℚ), (3 : ℚ))) true).2
            = (fun _ => mOne.variance)
        ∧ mOne.predict_value (fun _ : Fin 1 => ((2 : ℚ), (3 : ℚ))) true
            = mOne.predict_value (fun _ : Fin 1 => ((2 : ℚ), (3 : ℚ))) false)
      ∧ (∀ p, mOne.data = some p → ∀ j,
          (mOne.predict_value (fun _ : Fin 1 => ((2 : ℚ), (3 : ℚ))) true).2 j
            = (mOne.predict_value (fun _ : Fin 1 => ((2 : ℚ), (3 : ℚ))) false).2 j
              + mOne.noise)) :=
  ⟨C10_noise_only_with_observations ⟨0⟩ mEmpty (fun _ => ((2 : ℚ), (3 : ℚ))),
   C10_noise_only_with_observations ⟨0⟩ mOne (fun _ => ((2 : ℚ), (3 : ℚ)))⟩

/-- Witness for C8 at a concrete data-free model and a concrete one-observation
model. -/
theorem C8_witness :
    gEmpty.train_kernel none none (fun xs zs => (xs, zs)) = TrainResult.insufficientData
    ∧ gOne.train_kernel none none (fun xs zs => (xs, zs))
        = TrainResult.trained ([((0 : ℚ), (0 : ℚ))], [(1 : ℚ)]) :=
  ⟨(C8_train_kernel_requires_data gEmpty none none (fun xs zs => (xs, zs))).1 (Or.inl rfl),
   (C8_train_kernel_requires_data gOne none none (fun xs zs => (xs, zs))).2
     [((0 : ℚ), (0 : ℚ))] [(1 : ℚ)] rfl rfl⟩

/-- Witness for C9: one incremental `add_data` call on the concrete
one-observation model, with the prior invariant and the `pdinv`-success
hypothesis discharged by computation. -/
theorem C9_witness :
    (mOne.add_data xw2 zw2).SoundState
    ∧ (mOne.add_data xw2 zw2).xvalsList.length
        = (mOne.add_data xw2 zw2).zvalsList.length :=
  C9_add_data_invariants mOne xw2 zw2 (fun _ _ => rfl)
    (by
      intro p hp
      rw [Option.mem_def] at hp
      have hp2 : p = ⟨1, init_model k0 0 xw1 zw1⟩ := Option.some_inj.mp hp.symm
      subst hp2
      exact init_model_sound k0 0 xw1 zw1
        (by simp [Matrix.det_fin_one, kermat, k0, jitter, Matrix.add_apply,
          Matrix.smul_apply, Matrix.one_apply]))
    (by intro h; exact absurd h (Option.some_ne_none _))
    (by
      intro p hp
      have hp2 : p = ⟨1, init_model k0 0 xw1 zw1⟩ := Option.some_inj.mp hp.symm
      subst hp2
      simp [Matrix.det_fin_one, kermat, mOne, k0, jitter, init_model, qInv,
        Matrix.adjugate_fin_one, Matrix.mul_apply, Matrix.add_apply, Matrix.smul_apply,
        Matrix.sub_apply, Matrix.transpose_apply, Matrix.one_apply, Fin.sum_univ_one])

/-! ## Claim theorems for the decision loop -/

lemma lookup_eq_of_mem_of_nodup {l : List (ℕ × ℚ)} {a : ℕ} {b : ℚ}
    (hnd : (l.map Prod.fst).Nodup) (hab : (a, b) ∈ l) : l.lookup a = some b := by
  induction l with
  | nil => cases hab
  | cons hd tl ih =>
    obtain ⟨k, v⟩ := hd
    simp only [List.map_cons, List.nodup_cons] at hnd
    obtain ⟨hk, htl⟩ := hnd
    rcases List.mem_cons.mp hab with hab1 | hab2
    · injection hab1 with h1 h2
      subst h1
      subst h2
      simp [List.lookup]
    · have ha : a ∈ tl.map Prod.fst := List.mem_map_of_mem Prod.fst hab2
      have hne : (a == k) = false := by
        apply beq_eq_false_iff_ne.mpr
        intro h
        exact hk (h ▸ ha)
      simp [List.lookup, hne, ih htl hab2]

/-- Witness configuration with cost normalization enabled. -/
def cfgCost : RobotCfg :=
  { use_cost := true, goal_only := false, path_option := PathOption.default,
    goals := fun _ => ((0 : ℚ), (0 : ℚ)) }

/-- Witness configuration with cost normalization disabled. -/
def cfgFree : RobotCfg :=
  { use_cost := false, goal_only := false, path_option := PathOption.default,
    goals := fun _ => ((0 : ℚ), (0 : ℚ)) }

/-- A concrete candidate path. -/
def entA : PathEntry :=
  { pid := 0, points := [((1 : ℚ), (0 : ℚ))], geom := [((1 : ℚ), (0 : ℚ))] }

/-- A second concrete candidate path. -/
def entB : PathEntry :=
  { pid := 1, points := [((0 : ℚ), (1 : ℚ))], geom := [((0 : ℚ), (1 : ℚ))] }

/-- A constant acquisition function (scores every candidate `5`, producing the
two-way tie of the specification's tie-breaking scenario). -/
def aqConst : List QPoint → ℚ := fun _ => 5

/-- A path-cost collaborator that reports cost exactly `0`. -/
def zeroCost : List QPoint → ℚ := fun _ => 0

/-- A concrete two-candidate path source. -/
def gpsW : QPoint → List PathEntry := fun _ => [entA, entB]

/-- C6: whenever cost normalization is enabled and a candidate path's true
cost returned by the path generator is exactly 0, the candidate's score is the
acquisition reward divided by the fallback constant cost `100.0`; the
effective divisor is never 0; and with cost normalization disabled the score
is the raw acquisition reward with no division. -/
theorem C6_zero_cost_fallback (cfg : RobotCfg) (aq : List QPoint → ℚ)
    (pathCost : List QPoint → ℚ) (e : PathEntry) :
    (cfg.use_cost = true → pathCost e.geom = 0 →
      scoreOf cfg aq pathCost e = aq (poiOf cfg e.pid e.points) / 100)
    ∧ (cfg.use_cost = false → scoreOf cfg aq pathCost e = aq (poiOf cfg e.pid e.points))
    ∧ effectiveCost cfg pathCost e.geom ≠ 0 := by
  refine ⟨?_, ?_, ?_⟩
  · intro hu h0
    simp [scoreOf, effectiveCost, hu, h0]
  · intro hu
    simp [scoreOf, hu]
  · by_cases hu : cfg.use_cost <;> by_cases h0 : pathCost e.geom = 0 <;>
      simp [effectiveCost, hu, h0]

/-- C7: in every epoch where at least one candidate is scored, the tied-argmax
list consists exactly of the keys scored at the maximum, each appearing once
(so the modelled uniform index draw of `np.random.choice` induces the uniform
distribution on exactly the tied set), every score is bounded by the maximum,
and for every random draw the selection returns a candidate whose recorded
key is in the tied set and whose returned value is the maximum score. -/
theorem C7_argmax_with_uniform_ties (cfg : RobotCfg) (aq : List QPoint → ℚ)
    (pathCost : List QPoint → ℚ) (getPathSet : QPoint → List PathEntry) (loc : QPoint)
    (mx : ℚ)
    (hnd : ((valuesOf cfg aq pathCost (getPathSet loc)).map Prod.fst).Nodup)
    (hmx : ((valuesOf cfg aq pathCost (getPathSet loc)).map Prod.snd).maximum = some mx) :
    (∀ pv ∈ valuesOf cfg aq pathCost (getPathSet loc), pv.2 ≤ mx)
    ∧ (∀ p, p ∈ bestKeys (valuesOf cfg aq pathCost (getPathSet loc)) mx
        ↔ (p, mx) ∈ valuesOf cfg aq pathCost (getPathSet loc))
    ∧ (∀ p ∈ bestKeys (valuesOf cfg aq pathCost (getPathSet loc)) mx,
        (bestKeys (valuesOf cfg aq pathCost (getPathSet loc)) mx).count p = 1)
    ∧ (∀ r : ℕ, (choose_trajectory cfg aq pathCost getPathSet r loc).isSome = true)
    ∧ (∀ r res, choose_trajectory cfg aq pathCost getPathSet r loc = some res →
        res.key ∈ bestKeys (valuesOf cfg aq pathCost (getPathSet loc)) mx
        ∧ res.bestVal = mx) := by
  have hmem : ∀ p, p ∈ bestKeys (valuesOf cfg aq pathCost (getPathSet loc)) mx
      ↔ (p, mx) ∈ valuesOf cfg aq pathCost (getPathSet loc) := by
    intro p
    constructor
    · intro hp
      simp only [bestKeys, List.mem_map, List.mem_filter] at hp
      obtain ⟨⟨a, b⟩, ⟨hab, hb⟩, rfl⟩ := hp
      have hbmx : b = mx := of_decide_eq_true hb
      subst hbmx
      exact hab
    · intro hp
      simp only [bestKeys, List.mem_map, List.mem_filter]
      exact ⟨(p, mx), ⟨hp, by simp⟩, rfl⟩
  refine ⟨?_, hmem, ?_, ?_⟩
  · intro pv hpv
    exact List.le_maximum_of_mem (List.mem_map_of_mem Prod.snd hpv) hmx
  · intro p hp
    have hsub : (bestKeys (valuesOf cfg aq pathCost (getPathSet loc)) mx).Sublist
        ((valuesOf cfg aq pathCost (getPathSet loc)).map Prod.fst) :=
      ((valuesOf cfg aq pathCost (getPathSet loc)).filter_sublist).map Prod.fst
    exact List.count_eq_one_of_mem (hnd.sublist hsub) hp
  · have hsel : ∀ r : ℕ, ∃ bk e2,
        chosen_key (valuesOf cfg aq pathCost (getPathSet loc)) r = some bk
        ∧ bk ∈ bestKeys (valuesOf cfg aq pathCost (getPathSet loc)) mx
        ∧ (getPathSet loc).find? (fun x => x.pid == bk) = some e2
        ∧ (valuesOf cfg aq pathCost (getPathSet loc)).lookup bk = some mx := by
      intro r
      have hmm : mx ∈ (valuesOf cfg aq pathCost (getPathSet loc)).map Prod.snd :=
        List.maximum_mem hmx
      obtain ⟨⟨a, b⟩, hab, hb⟩ := List.mem_map.mp hmm
      rw [show b = mx from hb] at hab
      have hane : a ∈ bestKeys (valuesOf cfg aq pathCost (getPathSet loc)) mx :=
        (hmem a).mpr hab
      have hbne : bestKeys (valuesOf cfg aq pathCost (getPathSet loc)) mx ≠ [] := by
        intro hemp
        rw [hemp] at hane
        exact absurd hane (List.not_mem_nil a)
      have hlen : 0 < (bestKeys (valuesOf cfg aq pathCost (getPathSet loc)) mx).length :=
        List.length_pos.mpr hbne
      have hidx : r % (bestKeys (valuesOf cfg aq pathCost (getPathSet loc)) mx).length
          < (bestKeys (valuesOf cfg aq pathCost (getPathSet loc)) mx).length :=
        Nat.mod_lt _ hlen
      have hbk : (bestKeys (valuesOf cfg aq pathCost (getPathSet loc)) mx)[r %
          (bestKeys (valuesOf cfg aq pathCost (getPathSet loc)) mx).length]
            ∈ bestKeys (valuesOf cfg aq pathCost (getPathSet loc)) mx :=
        List.getElem_mem hidx
      have hkey : ((bestKeys (valuesOf cfg aq pathCost (getPathSet loc)) mx)[r %
          (bestKeys (valuesOf cfg aq pathCost (getPathSet loc)) mx).length], mx)
            ∈ valuesOf cfg aq pathCost (getPathSet loc) := (hmem _).mp hbk
      obtain ⟨e, he, hpe⟩ : ∃ e ∈ getPathSet loc,
          e.pid = (bestKeys (valuesOf cfg aq pathCost (getPathSet loc)) mx)[r %
            (bestKeys (valuesOf cfg aq pathCost (getPathSet loc)) mx).length] := by
        simp only [valuesOf, List.mem_map] at hkey
        obtain ⟨e, he, heq⟩ := hkey
        exact ⟨e, he, congrArg Prod.fst heq⟩
      obtain ⟨e2, hfind⟩ : ∃ e2, (getPathSet loc).find?
          (fun x => x.pid == (bestKeys (valuesOf cfg aq pathCost (getPathSet loc)) mx)[r %
            (bestKeys (valuesOf cfg aq pathCost (getPathSet loc)) mx).length]) = some e2 := by
        rw [← Option.isSome_iff_exists]
        exact List.find?_isSome.mpr ⟨e, he, by simp [hpe]⟩
      refine ⟨_, e2, ?_, hbk, hfind, lookup_eq_of_mem_of_nodup hnd hkey⟩
      simp only [chosen_key, hmx]
      exact List.getElem?_eq_getElem hidx
    constructor
    · intro r
      obtain ⟨bk, e2, hck, hbk, hfind, hlook⟩ := hsel r
      simp [choose_trajectory, hck, hfind]
    · intro r res h
      obtain ⟨bk, e2, hck, hbk, hfind, hlook⟩ := hsel r
      simp only [choose_trajectory, hck, hfind] at h
      obtain rfl := Option.some_inj.mp h
      refine ⟨hbk, ?_⟩
      show ((valuesOf cfg aq pathCost (getPathSet loc)).lookup bk).getD 0 = mx
      rw [hlook]
      rfl

/-- Witness for C6: with cost normalization on and true cost `0` the score is
the reward over the fallback `100`; with it off the score is the raw reward;
and the effective divisor is nonzero. -/
theorem C6_witness :
    scoreOf cfgCost aqConst zeroCost entA
        = aqConst (poiOf cfgCost entA.pid entA.points) / 100
    ∧ scoreOf cfgFree aqConst zeroCost entA
        = aqConst (poiOf cfgFree entA.pid entA.points)
    ∧ effectiveCost cfgCost zeroCost entA.geom ≠ 0 :=
  ⟨(C6_zero_cost_fallback cfgCost aqConst zeroCost entA).1 rfl rfl,
   (C6_zero_cost_fallback cfgFree aqConst zeroCost entA).2.1 rfl,
   (C6_zero_cost_fallback cfgCost aqConst zeroCost entA).2.2⟩

/-- Witness for C7 on the specification's tie scenario: two candidates both
scored `5`; the tied-key list is exactly both keys and the selection always
succeeds. -/
theorem C7_witness :
    (∀ p, p ∈ bestKeys (valuesOf cfgFree aqConst zeroCost (gpsW ((0 : ℚ), (0 : ℚ)))) 5
        ↔ (p, (5 : ℚ)) ∈ valuesOf cfgFree aqConst zeroCost (gpsW ((0 : ℚ), (0 : ℚ))))
    ∧ (choose_trajectory cfgFree aqConst zeroCost gpsW 3 ((0 : ℚ), (0 : ℚ))).isSome
        = true :=
  ⟨(C7_argmax_with_uniform_ties cfgFree aqConst zeroCost gpsW ((0 : ℚ), (0 : ℚ)) 5
      (by decide) (by decide)).2.1,
   (C7_argmax_with_uniform_ties cfgFree aqConst zeroCost gpsW ((0 : ℚ), (0 : ℚ)) 5
      (by decide) (by decide)).2.2.2.1 3⟩

/-- C3 (as the code actually behaves): when scoring fails for every candidate
because the path candidate source returns an empty path set,
`choose_trajectory` does return the failure signal `None`; but the planner
then unpacks that `None` into a 6-tuple and raises
`TypeError: cannot unpack non-iterable NoneType` instead of reaching its own
`if best_path == None: break` guard, so the run ends with an uncaught
exception (modelled by `PlanResult.crashed`) rather than a graceful early
termination.  State accumulated in prior epochs is still preserved on the
Python object at the raise. -/
theorem C3_empty_candidates_crash (cfg : RobotCfg) (aq : ℕ → List QPoint → ℚ)
    (pathCost : List QPoint → ℚ) (r : ℕ → ℕ) (sample : List QPoint → List ℚ)
    (s : RobotState) (T : ℕ) (hT : 0 < T) :
    choose_trajectory cfg (aq 0) pathCost (fun _ => []) (r 0) s.loc = none
    ∧ planner (myopicChoose cfg aq pathCost (fun _ => []) r) sample T s
        = PlanResult.crashed { s with trajectory := [], dist := 0 } := by
  constructor
  · rfl
  · obtain ⟨T2, rfl⟩ : ∃ T2, T = T2 + 1 := ⟨T - 1, (Nat.succ_pred_eq_of_pos hT).symm⟩
    rfl

/-- Witness for C3 at a concrete robot state and a one-epoch horizon. -/
theorem C3_witness :
    choose_trajectory cfgFree aqConst zeroCost (fun _ => []) 0
        (initRobot ((0 : ℚ), (0 : ℚ))).loc = none
    ∧ planner (myopicChoose cfgFree (fun _ => aqConst) zeroCost (fun _ => []) (fun _ => 0))
        (fun _ => []) 1 (initRobot ((0 : ℚ), (0 : ℚ)))
        = PlanResult.crashed
            { initRobot ((0 : ℚ), (0 : ℚ)) with trajectory := [], dist := 0 } :=
  C3_empty_candidates_crash cfgFree (fun _ => aqConst) zeroCost (fun _ => 0) (fun _ => [])
    (initRobot ((0 : ℚ), (0 : ℚ))) 1 Nat.one_pos

lemma obsMaxStep_fst (c : ℚ × QPoint) (zx : ℚ × QPoint) :
    (obsMaxStep c zx).1 = max c.1 zx.1 := by
  rcases le_or_lt zx.1 c.1 with h | h
  · rw [obsMaxStep, if_neg (not_lt.mpr h), max_eq_left h]
  · rw [obsMaxStep, if_pos h, max_eq_right h.le]

lemma obsMaxFold_fst (l : List (ℚ × QPoint)) : ∀ c : ℚ × QPoint,
    (obsMaxFold c l).1 = l.foldl (fun m zx => max m zx.1) c.1 := by
  induction l with
  | nil => intro c; rfl
  | cons hd tl ih =>
    intro c
    show (obsMaxFold (obsMaxStep c hd) tl).1 = _
    rw [ih, List.foldl_cons, obsMaxStep_fst]

lemma le_foldl_max (l : List (ℚ × QPoint)) : ∀ c : ℚ,
    c ≤ l.foldl (fun m zx => max m zx.1) c := by
  induction l with
  | nil => intro c; exact le_refl c
  | cons hd tl ih =>
    intro c
    rw [List.foldl_cons]
    exact le_trans (le_max_left c hd.1) (ih (max c hd.1))

/-- C4, amended: across the decision loop the running best `current_max` is
non-decreasing, each `collect_observations` call leaves it equal to the
maximum of its previous value and all newly observed values (hence, from the
`Robot.__init__` sentinel `-1000`, equal to the maximum of `-1000` and all
values observed so far — not in general the maximum observed value), and one
step of the update replaces value and location exactly when the new
observation strictly exceeds the current value, so the first-seen value is
kept on ties. -/
theorem C4_running_best_clamped (sample : List QPoint → List ℚ) (s : RobotState)
    (xobs : List QPoint) :
    (collect_observations sample s xobs).currentMax
        = ((sample xobs).zip xobs).foldl (fun m zx => max m zx.1) s.currentMax
    ∧ s.currentMax ≤ (collect_observations sample s xobs).currentMax
    ∧ (∀ c cl z x, z ≤ c → obsMaxStep (c, cl) (z, x) = (c, cl))
    ∧ (∀ c cl z x, c < z → obsMaxStep (c, cl) (z, x) = (z, x)) := by
  have hfold : (collect_observations sample s xobs).currentMax
      = ((sample xobs).zip xobs).foldl (fun m zx => max m zx.1) s.currentMax := by
    show (obsMaxFold (s.currentMax, s.currentMaxLoc) ((sample xobs).zip xobs)).1 = _
    rw [obsMaxFold_fst]
  refine ⟨hfold, ?_, ?_, ?_⟩
  · rw [hfold]
    exact le_foldl_max _ s.currentMax
  · intro c cl z x h
    rw [obsMaxStep, if_neg (not_lt.mpr h)]
  · intro c cl z x h
    rw [obsMaxStep, if_pos h]

/-- Counterexample for C4 as stated: a single observed value `-2000` lies
below the `-1000` sentinel of `Robot.__init__`, is recorded as the (unique,
hence maximal) observed value, yet `current_max` stays `-1000`. -/
theorem C4_counterexample :
    (collect_observations (fun _ => [(-2000 : ℚ)]) (initRobot ((0 : ℚ), (0 : ℚ)))
        [((1 : ℚ), (1 : ℚ))]).obsZ = [(-2000 : ℚ)]
    ∧ (collect_observations (fun _ => [(-2000 : ℚ)]) (initRobot ((0 : ℚ), (0 : ℚ)))
        [((1 : ℚ), (1 : ℚ))]).currentMax ≠ (-2000 : ℚ) := by
  refine ⟨rfl, ?_⟩
  show (obsMaxFold ((-1000 : ℚ), ((0 : ℚ), (0 : ℚ)))
      [((-2000 : ℚ), ((1 : ℚ), (1 : ℚ)))]).1 ≠ (-2000 : ℚ)
  norm_num [obsMaxFold, obsMaxStep]

/-- Witness for the amended C4 at concrete inputs, including a tie kept and a
strict improvement taken. -/
theorem C4_witness :
    (collect_observations (fun _ => [(7 : ℚ)]) (initRobot ((0 : ℚ), (0 : ℚ)))
        [((2 : ℚ), (2 : ℚ))]).currentMax
      = (((7 : ℚ) :: []).zip [((2 : ℚ), (2 : ℚ))]).foldl (fun m zx => max m zx.1)
          (initRobot ((0 : ℚ), (0 : ℚ))).currentMax
    ∧ obsMaxStep ((3 : ℚ), ((0 : ℚ), (0 : ℚ))) ((3 : ℚ), ((9 : ℚ), (9 : ℚ)))
        = ((3 : ℚ), ((0 : ℚ), (0 : ℚ)))
    ∧ obsMaxStep ((3 : ℚ), ((0 : ℚ), (0 : ℚ))) ((4 : ℚ), ((9 : ℚ), (9 : ℚ)))
        = ((4 : ℚ), ((9 : ℚ), (9 : ℚ))) :=
  ⟨(C4_running_best_clamped (fun _ => [(7 : ℚ)]) (initRobot ((0 : ℚ), (0 : ℚ)))
      [((2 : ℚ), (2 : ℚ))]).1,
   (C4_running_best_clamped (fun _ => [(7 : ℚ)]) (initRobot ((0 : ℚ), (0 : ℚ)))
      [((2 : ℚ), (2 : ℚ))]).2.2.1 3 ((0 : ℚ), (0 : ℚ)) 3 ((9 : ℚ), (9 : ℚ)) (le_refl 3),
   (C4_running_best_clamped (fun _ => [(7 : ℚ)]) (initRobot ((0 : ℚ), (0 : ℚ)))
      [((2 : ℚ), (2 : ℚ))]).2.2.2 3 ((0 : ℚ), (0 : ℚ)) 4 ((9 : ℚ), (9 : ℚ)) (by norm_num)⟩

lemma stepDist_nonneg (a b : QPoint) : 0 ≤ stepDist a b :=
  Real.sqrt_nonneg _

lemma stepDist_self (a : QPoint) : stepDist a a = 0 := by
  simp [stepDist]

lemma pathDistFrom_nonneg (l : List QPoint) : ∀ a, 0 ≤ pathDistFrom a l := by
  induction l with
  | nil => intro a; exact le_refl 0
  | cons b tl ih =>
    intro a
    exact add_nonneg (stepDist_nonneg a b) (ih b)

lemma chainDist_cons_append (l m : List QPoint) : ∀ a,
    chainDist (a :: (l ++ m)) = pathDistFrom a l + chainDist (l.getLastD a :: m) := by
  induction l with
  | nil =>
    intro a
    simp [pathDistFrom, List.getLastD]
  | cons b tl ih =>
    intro a
    show stepDist a b + chainDist (b :: (tl ++ m)) = _
    rw [ih b]
    show _ = stepDist a b + pathDistFrom b tl + chainDist ((b :: tl).getLastD a :: m)
    rw [List.getLastD_cons, add_assoc]

lemma chainDist_const (p : QPoint) : ∀ l, (∀ x ∈ l, x = p) → chainDist (p :: l) = 0 := by
  intro l
  induction l with
  | nil => intro _; rfl
  | cons b tl ih =>
    intro h
    have hb : b = p := h b (List.mem_cons_self b tl)
    subst hb
    show stepDist b b + chainDist (b :: tl) = 0
    rw [stepDist_self, ih fun x hx => h x (List.mem_cons_of_mem b hx), add_zero]

lemma epochStep_none_spec (choose : ℕ → QPoint → Option (List QPoint × List QPoint))
    (sample : List QPoint → List ℚ) (t : ℕ) (s : RobotState)
    (hch : choose t s.loc = none) :
    epochStep choose sample t s = Except.error s := by
  simp only [epochStep, hch]

lemma epochStep_emptyPath_spec (choose : ℕ → QPoint → Option (List QPoint × List QPoint))
    (sample : List QPoint → List ℚ) (t : ℕ) (s : RobotState) (sp bp : List QPoint)
    (hch : choose t s.loc = some (sp, bp)) (hlast : sp.getLast? = none) :
    epochStep choose sample t s
      = Except.error { s with dist := s.dist + pathDistFrom s.loc bp } := by
  simp only [epochStep, hch, hlast]

lemma epochStep_ok_spec (choose : ℕ → QPoint → Option (List QPoint × List QPoint))
    (sample : List QPoint → List ℚ) (t : ℕ) (s : RobotState) (sp bp : List QPoint)
    (lastPt : QPoint) (hch : choose t s.loc = some (sp, bp))
    (hlast : sp.getLast? = some lastPt) :
    ∃ s4, epochStep choose sample t s = Except.ok s4
      ∧ s4.trajectory = s.trajectory ++ [bp]
      ∧ s4.dist = s.dist + pathDistFrom s.loc bp
      ∧ s4.loc = lastPt := by
  refine ⟨{ collect_observations sample { s with dist := s.dist + pathDistFrom s.loc bp } sp with
      trajectory := (collect_observations sample
        { s with dist := s.dist + pathDistFrom s.loc bp } sp).trajectory ++ [bp],
      loc := lastPt }, ?_, rfl, rfl, rfl⟩
  simp only [epochStep, hch, hlast]

/-- Completed runs of the planner loop accumulate exactly the chain distance
of the current pose followed by the waypoints of the accepted paths, provided
(as the path-source interface guarantees) each accepted geometric path is
non-empty and ends where its sampling path ends. -/
lemma plannerLoop_done_dist (choose : ℕ → QPoint → Option (List QPoint × List QPoint))
    (sample : List QPoint → List ℚ)
    (hconnect : ∀ t loc sp bp, choose t loc = some (sp, bp) →
        bp ≠ [] ∧ sp.getLast? = bp.getLast?) :
    ∀ rem t s s2, plannerLoop choose sample t rem s = PlanResult.done s2 →
      ∃ new : List (List QPoint), s2.trajectory = s.trajectory ++ new
        ∧ s2.dist = s.dist + chainDist (s.loc :: new.flatten) := by
  intro rem
  induction rem with
  | zero =>
    intro t s s2 h
    injection h with h2
    refine ⟨[], ?_, ?_⟩
    · rw [← h2, List.append_nil]
    · rw [← h2]
      show s.dist = s.dist + chainDist [s.loc]
      rw [show chainDist [s.loc] = 0 from rfl, add_zero]
  | succ rem ih =>
    intro t s s2 h
    rw [plannerLoop] at h
    cases hch : choose t s.loc with
    | none =>
      rw [epochStep_none_spec choose sample t s hch] at h
      simp at h
    | some pair =>
      obtain ⟨sp, bp⟩ := pair
      obtain ⟨hbp, hlasts⟩ := hconnect t s.loc sp bp hch
      cases hlast : sp.getLast? with
      | none =>
        rw [epochStep_emptyPath_spec choose sample t s sp bp hch hlast] at h
        simp at h
      | some lastPt =>
        obtain ⟨s4, hstep, htraj, hdist4, hloc4⟩ :=
          epochStep_ok_spec choose sample t s sp bp lastPt hch hlast
        rw [hstep] at h
        obtain ⟨new1, hnew1, hdist1⟩ := ih (t + 1) s4 s2 h
        refine ⟨bp :: new1, ?_, ?_⟩
        · rw [hnew1, htraj, List.append_assoc, List.singleton_append]
        · rw [hdist1, hdist4, hloc4]
          have hgl : bp.getLastD s.loc = lastPt := by
            rw [List.getLastD_eq_getLast?, ← hlasts, hlast]
            rfl
          rw [show (bp :: new1).flatten = bp ++ new1.flatten from rfl,
            chainDist_cons_append, hgl, add_assoc]

/-- C5: after a completed `planner` run, `self.dist` equals the total
Euclidean waypoint-to-waypoint length of the chain formed by the starting
pose and the accepted trajectory (`self.trajectory`); it is zero for an agent
that never moves; and every epoch (successful or aborted) changes `self.dist`
non-decreasingly, so the accumulated distance is monotone across epochs.  The
hypothesis on the chooser encodes the path-source interface: the geometric
and sampling representations of a selected path are non-empty and share
their final waypoint. -/
theorem C5_distance_accumulation (choose : ℕ → QPoint → Option (List QPoint × List QPoint))
    (sample : List QPoint → List ℚ) (T : ℕ) (s s2 : RobotState)
    (hconnect : ∀ t loc sp bp, choose t loc = some (sp, bp) →
        bp ≠ [] ∧ sp.getLast? = bp.getLast?)
    (hdone : planner choose sample T s = PlanResult.done s2) :
    s2.dist = chainDist (s.loc :: s2.trajectory.flatten)
    ∧ ((∀ path ∈ s2.trajectory, ∀ x ∈ path, x = s.loc) → s2.dist = 0)
    ∧ (∀ t s1 s4, epochStep choose sample t s1 = Except.ok s4
        ∨ epochStep choose sample t s1 = Except.error s4 → s1.dist ≤ s4.dist) := by
  obtain ⟨new, hnew, hdist⟩ := plannerLoop_done_dist choose sample hconnect T 0
    { s with trajectory := [], dist := 0 } s2 hdone
  rw [List.nil_append] at hnew
  have hmain : s2.dist = chainDist (s.loc :: s2.trajectory.flatten) := by
    rw [hdist, hnew]
    show (0 : ℝ) + _ = _
    rw [zero_add]
  refine ⟨hmain, ?_, ?_⟩
  · intro hconst
    rw [hmain]
    refine chainDist_const s.loc s2.trajectory.flatten ?_
    intro x hx
    obtain ⟨path, hpath, hxp⟩ := List.mem_flatten.mp hx
    exact hconst path hpath x hxp
  · intro t s1 s4 h
    cases hch : choose t s1.loc with
    | none =>
      have he := epochStep_none_spec choose sample t s1 hch
      rcases h with h | h
      · rw [he] at h
        simp at h
      · rw [he] at h
        injection h with h2
        rw [← h2]
    | some pair =>
      obtain ⟨sp, bp⟩ := pair
      cases hlast : sp.getLast? with
      | none =>
        have he := epochStep_emptyPath_spec choose sample t s1 sp bp hch hlast
        rcases h with h | h
        · rw [he] at h
          simp at h
        · rw [he] at h
          injection h with h2
          rw [← h2]
          exact le_add_of_nonneg_right (pathDistFrom_nonneg bp s1.loc)
      | some lastPt =>
        obtain ⟨s5, hstep, htraj, hdist5, hloc5⟩ :=
          epochStep_ok_spec choose sample t s1 sp bp lastPt hch hlast
        rcases h with h | h
        · rw [hstep] at h
          injection h with h2
          rw [← h2, hdist5]
          exact le_add_of_nonneg_right (pathDistFrom_nonneg bp s1.loc)
        · rw [hstep] at h
          simp at h



/-- The chooser of the C5 witness: a constant single stationary one-point
path, whose sampling and geometric representations coincide. -/
def c5Chooser : ℕ → QPoint → Option (List QPoint × List QPoint) :=
  fun _ _ => some ([((0 : ℚ), (0 : ℚ))], [((0 : ℚ), (0 : ℚ))])

/-- Final state of the one-epoch witness run of the planner. -/
noncomputable def c5Final : RobotState :=
  match planner c5Chooser (fun _ => [(5 : ℚ)]) 1 (initRobot ((0 : ℚ), (0 : ℚ))) with
  | PlanResult.done s => s
  | PlanResult.crashed s => s

/-- Witness for C5: a one-epoch run of a stationary agent, the
interface hypothesis discharged at the concrete chooser. -/
theorem C5_witness :
    c5Final.dist
        = chainDist ((initRobot ((0 : ℚ), (0 : ℚ))).loc :: c5Final.trajectory.flatten)
    ∧ ((∀ path ∈ c5Final.trajectory, ∀ x ∈ path,
          x = (initRobot ((0 : ℚ), (0 : ℚ))).loc) → c5Final.dist = 0)
    ∧ (∀ t s1 s4, epochStep c5Chooser (fun _ => [(5 : ℚ)]) t s1 = Except.ok s4
        ∨ epochStep c5Chooser (fun _ => [(5 : ℚ)]) t s1 = Except.error s4 →
          s1.dist ≤ s4.dist) :=
  C5_distance_accumulation c5Chooser (fun _ => [(5 : ℚ)]) 1
    (initRobot ((0 : ℚ), (0 : ℚ))) c5Final
    (by
      intro t loc sp bp h
      injection h with h2
      injection h2 with h3 h4
      subst h3
      subst h4
      exact ⟨by simp, rfl⟩)
    rfl

end IPP
